import Mathlib

/-!
Verification development for the Flux_rs scripting-language core: a shallow
embedding of the bytecode compiler (`src/compiler.rs`, `src/compiler/chunk.rs`),
the virtual machine (`src/vm.rs`, `src/vm/value.rs`) and the AST it consumes
(`src/parser/expr.rs`), together with theorems settling the specification's
claims about arithmetic promotion, jump bounds, return semantics, table
identity, error taxonomy, scoping and constant-pool deduplication.

Modelling conventions, fixed once here:
* Rust `i32` values are carried as unbounded `Int`; arithmetic that can
  overflow applies `wrap32` (two's-complement wraparound, i.e. release-build
  semantics).  Division by zero and `i32::MIN / -1`, which panic in every
  build profile, are mapped to an explicit panic outcome.
* Rust `f64` is modelled as `ℚ`.  Every float computation appearing in a
  claim (promotion of small integers, `2.5 + 1.0`) is exact in binary64, so
  the rational model agrees with the program on those inputs; infinities and
  NaN are outside the modelled fragment.
* `Rc<T>` sharing is modelled by an identifier into an explicit heap held in
  the VM state; `Rc<RefCell<Table>>` pointer identity becomes the identifier.
* Rust panics (slice indexing out of bounds, `unwrap` on `None`, integer
  division overflow, usize underflow) are explicit `panic` outcomes of the
  step relation, distinct from the language's own `RuntimeError` results.
* The recursive compiler is given fuel (a structural `Nat` argument) so that
  every definition is executable and kernel-reducible; running out of fuel is
  a distinguished outcome that no theorem ever confuses with the program's
  own results.
-/

set_option maxRecDepth 10000

namespace Flux

/-- Unary AST operators (src/parser/expr.rs `UnaryOp`). -/
inductive UnaryOp where
  | Minus
  | Bang
  deriving DecidableEq, Repr

/-- Binary AST operators (src/parser/expr.rs `BinaryOp`). -/
inductive BinaryOp where
  | Plus
  | Minus
  | Star
  | Slash
  | Greater
  | Less
  | EqualEqual
  | BangEqual
  | GreaterEqual
  | LessEqual
  deriving DecidableEq, Repr

/-- Unary bytecode operators (src/compiler.rs `UnaryInstr`, via its uses in
compiler.rs and vm.rs; `instruction.rs` itself is not part of the sources). -/
inductive UnaryInstr where
  | Negate
  | Not
  deriving DecidableEq, Repr

/-- Binary bytecode operators (src/compiler.rs `BinaryInstr`, via its uses in
compiler.rs `Compiler::binary` and vm.rs `Vm::binary`). -/
inductive BinaryInstr where
  | Add
  | Sub
  | Mul
  | Div
  | Gt
  | Lt
  | Ge
  | Le
  | Eq
  | Ne
  deriving DecidableEq, Repr

/-- Bytecode instructions.  The defining file `compiler/instruction.rs` is not
among the sources; the variant set and operand shapes are reconstructed from
every construction and match site in compiler.rs, chunk.rs and vm.rs.  Where
the two sides of the snapshot disagree on a variant's operands (compiler.rs
emits `GetLocal { index, frame }` and `FuncDef { proto_index }` while vm.rs
matches `GetLocal { index }` and `FuncDef { args_len, code_start }`), the
compiler-side shape — which is also the shape in the specification's §6
instruction list — is used, and the VM reads the extra data through the
prototype table.  Jump offsets are Rust `i8`, carried as `Int` (the compiler
applies the `as i8` casts where the source does). -/
inductive Instruction where
  | Nil
  | Unit
  | True
  | False
  | Constant (index : Nat)
  | Pop
  | Return (returnValue : Bool)
  | Bin (op : BinaryInstr)
  | Unary (op : UnaryInstr)
  | GetGlobal (index : Nat)
  | SetGlobal (index : Nat)
  | GetLocal (index : Nat) (frame : Nat)
  | SetLocal (index : Nat) (frame : Nat)
  | Jump (offset : Int)
  | JumpIf (whenTrue : Bool) (offset : Int)
  | InitTable (len : Nat) (hasKeys : Bool)
  | GetField
  | GetFieldImm (index : Nat)
  | SetField
  | SetFieldImm (index : Nat)
  | Print
  | Tuple (len : Nat)
  | GetFnLocal (index : Nat)
  | SetFnLocal (index : Nat)
  | FuncDef (protoIndex : Nat)
  | Call (argsLen : Nat)
  | GetUpval (index : Nat)
  | GetMethodImm (index : Nat)
  | Placeholder
  deriving DecidableEq, Repr

/-- Runtime values (src/vm/value.rs `Value`).  `Int` holds an `i32`, `Number`
an `f64` (see the modelling conventions), `Str` an `Rc<String>`, `Embedded` a
static interned string.  `Table` holds `Rc<RefCell<Table>>`, modelled as the
pointer identity: an identifier into the VM state's table heap, so that a
reference-copy of a table value copies the identifier and a fresh table
allocation draws a fresh identifier.  `Function` keeps the `User` variant's
payload (`args_len`, `code_start` — src/vm.rs line 146 constructs it with
`Function::new_user(args_len, code_start)`); the `Native` variant lives in the
excluded host library and is omitted. -/
inductive Value where
  | Nil
  | Bool (b : Bool)
  | Int (i : Int)
  | Number (q : ℚ)
  | Str (s : String)
  | Embedded (s : String)
  | Table (id : Nat)
  | Tuple (values : List Value)
  | Function (argsLen : Nat) (codeStart : Nat)
  | Unit

/-- Modelled from the spec: the `PartialEq` implementation of `Table` lives in
`src/vm/value/table.rs`, which is not among the sources.  The spec (§3) fixes
it: "Equality and hashing are ... identity-based (by storage address) for
`Table` — two tables are equal only if they are the same shared instance."
With table instances modelled by their heap identifier, identity comparison is
equality of identifiers, independent of the tables' contents. -/
def tableEq (a b : Nat) : Bool := a == b

mutual

/-- Structural equality of values: Rust's derived `PartialEq` on `Value`
(src/vm/value.rs line 13, `#[derive(Debug, Clone, PartialEq)]`).  Scalars,
strings and tuples compare structurally; `Str` and `Embedded` are distinct
variants, so the derived instance never equates them; tables compare by
identity via `tableEq`; user functions compare by their payload. -/
def valueEq : Value → Value → Bool
  | .Nil, .Nil => true
  | .Bool a, .Bool b => a == b
  | .Int a, .Int b => a == b
  | .Number a, .Number b => a == b
  | .Str a, .Str b => a == b
  | .Embedded a, .Embedded b => a == b
  | .Table a, .Table b => tableEq a b
  | .Tuple xs, .Tuple ys => valueEqList xs ys
  | .Function a c, .Function b d => a == b && c == d
  | .Unit, .Unit => true
  | _, _ => false

/-- Element-wise equality of value lists (Rust's derived `PartialEq` on
`Vec<Value>` inside the `Tuple` variant). -/
def valueEqList : List Value → List Value → Bool
  | [], [] => true
  | x :: xs, y :: ys => valueEq x y && valueEqList xs ys
  | _, _ => false

end

/-- src/vm/value.rs `Value::to_bool`: `Bool` yields its payload, `Nil` is
false, every other value is true.  (Not placed in the `Value` namespace
because the constructor `Value.Bool` would shadow the `Bool` type there.) -/
def toBool : Value → Bool
  | .Bool b => b
  | .Nil => false
  | _ => true

/-- Runtime errors (src/vm/error.rs is not among the sources; the variant set
is reconstructed from every construction site in vm.rs).  Rust stores the
undefined variable's rendered name (`name.to_string()`); the model keeps the
name `Value` itself (in compiled code it is always a `Str`/`Embedded`
constant). -/
inductive RuntimeError where
  | TypeError
  | UnsupportedBinary (value : Value) (op : BinaryInstr)
  | UndefinedVariable (name : Value)
  | EmptyStack
  | EmptyFrame
  | UnsupportedInstruction (instr : Instruction)

/-- Compile-time errors (src/compiler/error.rs is not among the sources; the
variant set is reconstructed from every construction site in compiler.rs and
chunk.rs).  `WrongPatch` carries the non-patchable instruction found,
`InvalidAssignmentTarget` and `UnimplementedExpr` carry AST nodes, which the
theorems never inspect, so they are dropped here. -/
inductive CompileError where
  | TooManyConstants
  | TooLongToJump
  | WrongPatch (instr : Instruction)
  | InvalidAssignmentTarget
  | UnimplementedExpr
  deriving DecidableEq, Repr

/-- Two's-complement wraparound to 32 bits: the value an `i32` arithmetic
operation produces in a release build when the mathematical result leaves the
`i32` range. -/
def wrap32 (x : Int) : Int := (x + 2 ^ 31) % 2 ^ 32 - 2 ^ 31

/-- Two's-complement wraparound to 8 bits: the value of a Rust `as i8` cast. -/
def i8cast (x : Int) : Int := (x + 2 ^ 7) % 2 ^ 8 - 2 ^ 7

/-- Outcome of a computation inside the VM: a result, a `RuntimeError`
propagated to the caller of `run`, or a Rust panic (see the modelling
conventions). -/
inductive RRes (α : Type) where
  | ok (a : α)
  | err (e : RuntimeError)
  | panicked

/-- The body of src/vm.rs `Vm::binary` (lines 269–328) after the two stack
pops: `left` and `right` are the popped operands (`right` popped first),
and the caller pushes the returned value.  Equality and inequality are
handled before the kind match; the kind match has arms for `Number`/`Number`,
`Number`/`Int` (the `Int` cast to `f64`), `Int`/`Int` (native `i32`
arithmetic: `/` is truncating `i32` division, panicking on a zero divisor or
on `i32::MIN / -1`; `+`, `-`, `*` wrap in release), `Str`/`Str` (addition is
concatenation, every other operator `TypeError`), and a catch-all producing
`UnsupportedBinary` carrying the left operand and the operator.  The `Eq`/`Ne`
arms reaching the numeric matches is Rust's `unreachable!()`, a panic. -/
def Vm.binary (op : BinaryInstr) (left right : Value) : RRes Value :=
  if op = .Eq then .ok (.Bool (valueEq left right))
  else if op = .Ne then .ok (.Bool (!valueEq left right))
  else
    match left, right with
    | .Number a, .Number b =>
      match op with
      | .Add => .ok (.Number (a + b))
      | .Sub => .ok (.Number (a - b))
      | .Mul => .ok (.Number (a * b))
      | .Div => .ok (.Number (a / b))
      | .Gt => .ok (.Bool (decide (a > b)))
      | .Lt => .ok (.Bool (decide (a < b)))
      | .Ge => .ok (.Bool (decide (a ≥ b)))
      | .Le => .ok (.Bool (decide (a ≤ b)))
      | _ => .panicked
    | .Number a, .Int b =>
      match op with
      | .Add => .ok (.Number (a + (b : ℚ)))
      | .Sub => .ok (.Number (a - (b : ℚ)))
      | .Mul => .ok (.Number (a * (b : ℚ)))
      | .Div => .ok (.Number (a / (b : ℚ)))
      | .Gt => .ok (.Bool (decide (a > (b : ℚ))))
      | .Lt => .ok (.Bool (decide (a < (b : ℚ))))
      | .Ge => .ok (.Bool (decide (a ≥ (b : ℚ))))
      | .Le => .ok (.Bool (decide (a ≤ (b : ℚ))))
      | _ => .panicked
    | .Int a, .Int b =>
      match op with
      | .Add => .ok (.Int (wrap32 (a + b)))
      | .Sub => .ok (.Int (wrap32 (a - b)))
      | .Mul => .ok (.Int (wrap32 (a * b)))
      | .Div => if b = 0 ∨ (a = -2 ^ 31 ∧ b = -1) then .panicked else .ok (.Int (a.tdiv b))
      | .Gt => .ok (.Bool (decide (a > b)))
      | .Lt => .ok (.Bool (decide (a < b)))
      | .Ge => .ok (.Bool (decide (a ≥ b)))
      | .Le => .ok (.Bool (decide (a ≤ b)))
      | _ => .panicked
    | .Str a, .Str b =>
      match op with
      | .Add => .ok (.Str (a ++ b))
      | _ => .err .TypeError
    | value, _ => .err (.UnsupportedBinary value op)

/-- The body of src/vm.rs `Vm::unary` (lines 330–344) after the pop: negation
on `Int` (release-mode wrapping, as `-i32::MIN` overflows) and `Number`,
logical not on `Bool`, `TypeError` otherwise. -/
def Vm.unary (op : UnaryInstr) (value : Value) : RRes Value :=
  match op with
  | .Negate =>
    match value with
    | .Int i => .ok (.Int (wrap32 (-i)))
    | .Number f => .ok (.Number (-f))
    | _ => .err .TypeError
  | .Not =>
    match value with
    | .Bool b => .ok (.Bool (!b))
    | _ => .err .TypeError

/-- One captured-variable descriptor (src/compiler.rs `UpValueDesc`). -/
structure UpValueDesc where
  index : Nat
  isThis : Bool
  deriving DecidableEq, Repr

/-- A compiled function prototype.  The snapshot's two descriptions disagree
(chunk.rs stores a boxed instruction slice, compiler.rs's call site
`push_proto(code_start, args_len, upvalues)` and vm.rs's
`FuncDef { args_len, code_start }` use a code-start offset into the shared
stream); the spec's §3 names both layouts and the code-start one is the one
every executable path in the snapshot uses, so it is the one modelled. -/
structure FuncProto where
  argsLen : Nat
  upvalues : List UpValueDesc
  codeStart : Nat
  deriving DecidableEq, Repr

/-- The compiled output unit (src/compiler/chunk.rs `Chunk`): instruction
stream, constant pool, prototype table.  Lists are index-aligned with the
Rust `Vec`s (index 0 is the first element pushed). -/
structure Chunk where
  instructions : List Instruction
  constants : List Value
  prototypes : List FuncProto

/-- A call frame (src/vm/frame.rs is not among the sources; its two fields and
`Frame::new(pc, stack_top)` are reconstructed from their uses in vm.rs). -/
structure Frame where
  pc : Nat
  stackTop : Nat
  deriving DecidableEq, Repr

/-- Modelled from the spec: `Table::get` lives in src/vm/value/table.rs, which
is not among the sources.  Spec §3 describes the table as "an associative
aggregate from Value to Value"; lookup compares keys with value equality
(`valueEq`, identity for table keys per §3) and a missing key yields `Nil`
(the dynamic language's "absent" value; no claim exercises the missing-key
path).  A table's contents are its key/value pairs in insertion order. -/
def tableGet (pairs : List (Value × Value)) (key : Value) : Value :=
  match pairs.find? (fun p => valueEq p.1 key) with
  | some p => p.2
  | none => .Nil

/-- Modelled from the spec: `Table::set` (src/vm/value/table.rs, not among the
sources) — insert or overwrite the binding of `key`, as a map update must. -/
def tableSet (pairs : List (Value × Value)) (key value : Value) :
    List (Value × Value) :=
  match pairs with
  | [] => [(key, value)]
  | p :: rest =>
    if valueEq p.1 key then (key, value) :: rest
    else p :: tableSet rest key value

/-- Lookup in the modelled `Rc<RefCell<Table>>` heap.  A live `Value.Table`
identifier always has a heap entry (the VM allocates the entry together with
the identifier), so the default for a dangling identifier is never reached
from `Vm.run`. -/
def heapGet (tables : List (Nat × List (Value × Value))) (id : Nat) :
    List (Value × Value) :=
  match tables.find? (fun t => t.1 == id) with
  | some t => t.2
  | none => []

/-- Overwrite one table's contents in the modelled heap. -/
def heapSet (tables : List (Nat × List (Value × Value))) (id : Nat)
    (pairs : List (Value × Value)) : List (Nat × List (Value × Value)) :=
  match tables with
  | [] => [(id, pairs)]
  | t :: rest => if t.1 == id then (id, pairs) :: rest else t :: heapSet rest id pairs

/-- `HashMap::get` on the globals map (src/vm.rs line 84), modelled on an
association list with the program's own key equality `valueEq`. -/
def globalsGet (globals : List (Value × Value)) (name : Value) : Option Value :=
  match globals.find? (fun p => valueEq p.1 name) with
  | some p => some p.2
  | none => none

/-- `HashMap::insert` on the globals map (src/vm.rs line 96): replace the
binding if the key is present, append it otherwise. -/
def globalsInsert (globals : List (Value × Value)) (name value : Value) :
    List (Value × Value) :=
  match globals with
  | [] => [(name, value)]
  | p :: rest =>
    if valueEq p.1 name then (name, value) :: rest
    else p :: globalsInsert rest name value

/-- The complete VM state (src/vm.rs `Vm` plus the executing chunk).  The
operand stack and frame stack are index-aligned with the Rust `Vec`s (index 0
is the bottom; pushes and pops act on the back).  `tables`/`nextTableId`
model the `Rc<RefCell<Table>>` heap, and `output` records what `Print` wrote
to stdout, in order. -/
structure VmState where
  frames : List Frame
  stack : List Value
  globals : List (Value × Value)
  chunk : Chunk
  tables : List (Nat × List (Value × Value))
  nextTableId : Nat
  output : List Value

/-- Result of one fetch-decode-execute iteration of src/vm.rs `Vm::execute`:
continue with a new state, halt with the program's result (the final
`Return`'s early `return`), abort with a `RuntimeError`, or hit a Rust
panic. -/
inductive StepRes where
  | cont (st : VmState)
  | halt (v : Value) (st : VmState)
  | fail (e : RuntimeError) (st : VmState)
  | panicked (st : VmState)

/-- `Vec::pop`: the back element and the remaining vector, if any. -/
def popBack {α : Type} (s : List α) : Option (α × List α) :=
  match s.getLast? with
  | none => none
  | some v => some (v, s.dropLast)

/-- The `while self.stack.len() > stack_top { self.pop_stack()?; }` loop of
the `Return` arm (src/vm.rs lines 71–73): popping until the length bound is
reached leaves exactly the first `stackTop` elements (every pop inside the
loop acts on a non-empty stack, so the loop can never raise `EmptyStack`). -/
def popToTop (stack : List Value) (stackTop : Nat) : List Value :=
  stack.take stackTop

/-- Replace the current (back) frame, after its mutation. -/
def setBackFrame (frames : List Frame) (f : Frame) : List Frame :=
  frames.dropLast ++ [f]

/-- The unconditional `f.pc += 1` at the bottom of the `Vm::execute` loop
(src/vm.rs lines 156–157), including its `current_frame_mut()?` failure. -/
def incPC (st : VmState) : StepRes :=
  match st.frames.getLast? with
  | none => .fail .EmptyFrame st
  | some f => .cont { st with frames := setBackFrame st.frames { f with pc := f.pc + 1 } }

/-- src/vm.rs `Vm::jump` (lines 241–249): a positive offset advances the pc by
`offset - 1`, otherwise the pc moves back by `-offset + 1`; the later loop-end
increment makes the net movement exactly `offset`.  Moving back past zero is a
usize underflow — a panic (`none`). -/
def jumpPC (pc : Nat) (offset : Int) : Option Nat :=
  if offset > 0 then some (pc + (offset - 1).toNat)
  else
    let k := (-offset + 1).toNat
    if pc < k then none else some (pc - k)

/-- The keyed loop of src/vm.rs `Vm::init_table` (lines 220–228): `len` times,
pop a value then a key and `Table::set` them into the table under
construction; `none` is an `EmptyStack` from one of the pops. -/
def initTableKeyed (len : Nat) (stack : List Value)
    (acc : List (Value × Value)) : Option (List (Value × Value) × List Value) :=
  match len with
  | 0 => some (acc, stack)
  | n + 1 =>
    match popBack stack with
    | none => none
    | some (value, s1) =>
      match popBack s1 with
      | none => none
      | some (key, s2) => initTableKeyed n s2 (tableSet acc key value)

/-- The keyless loop of src/vm.rs `Vm::init_table` (lines 229–235): for
`i in 0..len`, pair the popped value with the synthesized key `Int i`
(`Table::from_array` then takes the pairs as given). -/
def initTableArray (len : Nat) (i : Nat) (stack : List Value) :
    Option (List (Value × Value) × List Value) :=
  match len with
  | 0 => some ([], stack)
  | n + 1 =>
    match popBack stack with
    | none => none
    | some (value, s1) =>
      match initTableArray n (i + 1) s1 with
      | none => none
      | some (pairs, s2) => some (((.Int i, value)) :: pairs, s2)

/-- The pop loop of the `Tuple` arm (src/vm.rs lines 123–126): pop `len`
values, in pop order (the arm then reverses them). -/
def popN (len : Nat) (stack : List Value) : Option (List Value × List Value) :=
  match len with
  | 0 => some ([], stack)
  | n + 1 =>
    match popBack stack with
    | none => none
    | some (v, s1) =>
      match popN n s1 with
      | none => none
      | some (vs, s2) => some (v :: vs, s2)

/-- One iteration of the fetch-decode-execute loop of src/vm.rs `Vm::execute`
(lines 50–160): fetch the instruction at the current frame's pc
(`next_instr`, panicking like the Rust slice index when the pc is past the
stream), execute its arm, and perform the loop-end `f.pc += 1` (`incPC`) on
whatever frame is then current — which after a `Call` is the callee's frame
and after a non-final `Return` is the caller's.  Stack underflows raise
`EmptyStack` exactly where the Rust uses `pop_stack()?`, and panic where it
uses `unwrap()` or slice indexing. -/
def Vm.step (st : VmState) : StepRes :=
  match st.frames.getLast? with
  | none => .fail .EmptyFrame st
  | some f =>
    match st.chunk.instructions.get? f.pc with
    | none => .panicked st
    | some instr =>
      match instr with
      | .Nil => incPC { st with stack := st.stack ++ [.Nil] }
      | .Unit => incPC { st with stack := st.stack ++ [.Unit] }
      | .True => incPC { st with stack := st.stack ++ [.Bool true] }
      | .False => incPC { st with stack := st.stack ++ [.Bool false] }
      | .Constant index =>
        match st.chunk.constants.get? index with
        | none => .panicked st
        | some value => incPC { st with stack := st.stack ++ [value] }
      | .Pop =>
        match popBack st.stack with
        | none => .fail .EmptyStack st
        | some (_, s1) => incPC { st with stack := s1 }
      | .Return returnValue =>
        match (if returnValue then popBack st.stack
               else some (.Unit, st.stack)) with
        | none => .fail .EmptyStack st
        | some (value, s1) =>
          let s2 := popToTop s1 f.stackTop
          let frames1 := st.frames.dropLast
          if frames1.isEmpty then
            .halt value { st with stack := s2, frames := [] }
          else
            incPC { st with stack := s2 ++ [value], frames := frames1 }
      | .Bin op =>
        match popBack st.stack with
        | none => .fail .EmptyStack st
        | some (right, s1) =>
          match popBack s1 with
          | none => .fail .EmptyStack st
          | some (left, s2) =>
            match Vm.binary op left right with
            | .ok v => incPC { st with stack := s2 ++ [v] }
            | .err e => .fail e st
            | .panicked => .panicked st
      | .Unary op =>
        match popBack st.stack with
        | none => .fail .EmptyStack st
        | some (value, s1) =>
          match Vm.unary op value with
          | .ok v => incPC { st with stack := s1 ++ [v] }
          | .err e => .fail e st
          | .panicked => .panicked st
      | .GetGlobal index =>
        match st.chunk.constants.get? index with
        | none => .panicked st
        | some name =>
          match globalsGet st.globals name with
          | some value => incPC { st with stack := st.stack ++ [value] }
          | none => .fail (.UndefinedVariable name) st
      | .SetGlobal index =>
        match st.chunk.constants.get? index with
        | none => .panicked st
        | some name =>
          match popBack st.stack with
          | none => .panicked st
          | some (value, s1) =>
            incPC { st with stack := s1, globals := globalsInsert st.globals name value }
      | .GetLocal index _ =>
        match st.stack.get? index with
        | none => .panicked st
        | some value => incPC { st with stack := st.stack ++ [value] }
      | .SetLocal index _ =>
        if st.stack.length = index then incPC st
        else
          match popBack st.stack with
          | none => .fail .EmptyStack st
          | some (value, s1) =>
            if index < s1.length then
              incPC { st with stack := s1.set index value }
            else .panicked st
      | .Jump offset =>
        match jumpPC f.pc offset with
        | none => .panicked st
        | some pc1 => incPC { st with frames := setBackFrame st.frames { f with pc := pc1 } }
      | .JumpIf whenTrue offset =>
        match popBack st.stack with
        | none => .fail .EmptyStack st
        | some (value, s1) =>
          if toBool value = whenTrue then
            match jumpPC f.pc offset with
            | none => .panicked { st with stack := s1 }
            | some pc1 =>
              incPC { st with stack := s1,
                              frames := setBackFrame st.frames { f with pc := pc1 } }
          else incPC { st with stack := s1 }
      | .InitTable len hasKeys =>
        match (if hasKeys then initTableKeyed len st.stack []
               else initTableArray len 0 st.stack) with
        | none => .fail .EmptyStack st
        | some (pairs, s1) =>
          incPC { st with stack := s1 ++ [.Table st.nextTableId],
                          tables := st.tables ++ [(st.nextTableId, pairs)],
                          nextTableId := st.nextTableId + 1 }
      | .GetField =>
        match popBack st.stack with
        | none => .fail .EmptyStack st
        | some (key, s1) =>
          match popBack s1 with
          | none => .fail .EmptyStack st
          | some (table, s2) =>
            match table with
            | .Table id =>
              incPC { st with stack := s2 ++ [tableGet (heapGet st.tables id) key] }
            | _ => .fail .TypeError st
      | .GetFieldImm index =>
        match popBack st.stack with
        | none => .fail .EmptyStack st
        | some (table, s1) =>
          match st.chunk.constants.get? index with
          | none => .panicked st
          | some key =>
            match table with
            | .Table id =>
              incPC { st with stack := s1 ++ [tableGet (heapGet st.tables id) key] }
            | _ => .fail .TypeError st
      | .SetField =>
        match popBack st.stack with
        | none => .fail .EmptyStack st
        | some (table, s1) =>
          match popBack s1 with
          | none => .fail .EmptyStack st
          | some (key, s2) =>
            match popBack s2 with
            | none => .fail .EmptyStack st
            | some (value, s3) =>
              match table with
              | .Table id =>
                incPC { st with stack := s3,
                                tables := heapSet st.tables id
                                  (tableSet (heapGet st.tables id) key value) }
              | _ => .fail .TypeError st
      | .SetFieldImm index =>
        match popBack st.stack with
        | none => .fail .EmptyStack st
        | some (value, s1) =>
          match popBack s1 with
          | none => .fail .EmptyStack st
          | some (table, s2) =>
            match st.chunk.constants.get? index with
            | none => .panicked st
            | some key =>
              match table with
              | .Table id =>
                incPC { st with stack := s2,
                                tables := heapSet st.tables id
                                  (tableSet (heapGet st.tables id) key value) }
              | _ => .fail .TypeError st
      | .Print =>
        match popBack st.stack with
        | none => .fail .EmptyStack st
        | some (value, s1) =>
          incPC { st with stack := s1, output := st.output ++ [value] }
      | .Tuple len =>
        match popN len st.stack with
        | none => .fail .EmptyStack st
        | some (vs, s1) => incPC { st with stack := s1 ++ [.Tuple vs.reverse] }
      | .GetFnLocal index =>
        match st.stack.get? (f.stackTop + index) with
        | none => .panicked st
        | some value => incPC { st with stack := st.stack ++ [value] }
      | .SetFnLocal index =>
        if st.stack.length = f.stackTop + index then incPC st
        else
          match popBack st.stack with
          | none => .fail .EmptyStack st
          | some (value, s1) =>
            if f.stackTop + index < s1.length then
              incPC { st with stack := s1.set (f.stackTop + index) value }
            else .panicked st
      | .FuncDef protoIndex =>
        match st.chunk.prototypes.get? protoIndex with
        | none => .panicked st
        | some proto =>
          incPC { st with stack := st.stack ++ [.Function proto.argsLen proto.codeStart] }
      | .Call _ =>
        match popBack st.stack with
        | none => .fail .EmptyStack st
        | some (callee, s1) =>
          match callee with
          | .Function argsLen codeStart =>
            if argsLen ≤ s1.length then
              incPC { st with stack := s1,
                              frames := st.frames ++
                                [{ pc := codeStart, stackTop := s1.length - argsLen }] }
            else .panicked st
          | _ => .fail .TypeError st
      | _ => .fail (.UnsupportedInstruction instr) st

/-- Result of a bounded run of `Vm::execute`: the program's value, a
`RuntimeError`, a panic — each together with everything printed — or fuel
exhaustion (the Rust loop is unbounded; no theorem rests on `outOfFuel`). -/
inductive RunRes where
  | value (v : Value) (out : List Value)
  | err (e : RuntimeError) (out : List Value)
  | panicked (out : List Value)
  | outOfFuel

/-- src/vm.rs `Vm::execute` (lines 50–160) as iterated `Vm.step`, bounded by
fuel. -/
def Vm.run : Nat → VmState → RunRes
  | 0, _ => .outOfFuel
  | fuel + 1, st =>
    match Vm.step st with
    | .cont st1 => Vm.run fuel st1
    | .halt v st1 => .value v st1.output
    | .fail e st1 => .err e st1.output
    | .panicked st1 => .panicked st1.output

/-- src/vm.rs `Vm::new` + `Vm::run` entry (lines 27–48): install the chunk,
seed the globals (`PREDEFINED_CONSTANTS` lives in the excluded native
library, so the seed is a parameter) and push the initial frame
`Frame::new(0, 0)` (`init_call`). -/
def initVm (chunk : Chunk) (globals : List (Value × Value)) : VmState :=
  { frames := [{ pc := 0, stackTop := 0 }]
    stack := []
    globals := globals
    chunk := chunk
    tables := []
    nextTableId := 0
    output := [] }

/-- AST literals (src/parser/expr.rs `Literal`).  `Number` carries the `f64`
of the source, as `ℚ` per the modelling conventions. -/
inductive Literal where
  | Str (s : String)
  | Number (n : ℚ)
  | Bool (b : Bool)
  | Unit
  | Nil

mutual

/-- AST expressions (src/parser/expr.rs `Expr`).  `Block` and `If` are listed
"not added to compiler yet" in the source and fall into the compiler's
`UnimplementedExpr` arm. -/
inductive Expr where
  | Literal (lit : Literal)
  | Identifier (name : String)
  | Unary (op : UnaryOp) (expr : Expr)
  | Binary (left : Expr) (op : BinaryOp) (right : Expr)
  | Grouping (e : Expr)
  | Tuple (exprs : List Expr)
  | Access (table : Expr) (field : Expr)
  | SelfAccess (table : Expr) (field : String)
  | Set (target : Expr) (value : Expr)
  | TableInit (keys : Option (List Expr)) (values : List Expr)
  | Function (args : List String) (body : List Statement)
  | Call (func : Expr) (args : List Expr)
  | Block (stmts : List Statement) (e : Expr)
  | If (condition : Expr) (thenBlock : Expr) (elseBlock : Expr)

/-- AST statements (the parser's `Statement` type; its defining file is not
among the sources, the variant set and payloads are exactly those matched in
src/compiler.rs `Compiler::compile_stmt`, lines 65–89). -/
inductive Statement where
  | Expr (e : Expr)
  | Let (name : String) (value : Expr)
  | Block (stmts : List Statement)
  | If (condition : Expr) (thenBlock : Statement) (elseBlock : Option Statement)
  | While (condition : Expr) (thenBlock : Statement)
  | Print (e : Expr)
  | Return (e : Expr)

end

/-- A compile-time local-variable record (src/compiler.rs `Local`): name,
lexical depth (Rust `u8`; nesting past 255 is outside the modelled range) and
the index of the owning closure scope, if any. -/
structure Local where
  name : String
  depth : Nat
  closure : Option Nat

/-- Per-function compile-time scope record (src/compiler.rs `ClosureScope`). -/
structure ClosureScope where
  depth : Nat
  localStart : Nat
  upvalues : List UpValueDesc

/-- The compiler state (src/compiler.rs `Compiler`). -/
structure Compiler where
  chunk : Chunk
  locals : List Local
  depth : Nat
  closureScopes : List ClosureScope

/-- Outcome of a fuelled compiler computation: success, a `CompileError`, fuel
exhaustion, or a Rust panic (an `unwrap`/index that cannot fire on the
compiler's own call paths but is kept explicit). -/
inductive CRes (α : Type) where
  | ok (a : α)
  | err (e : CompileError)
  | nofuel
  | panicked

/-- Sequencing of fuelled compiler computations. -/
def CRes.bind {α β : Type} : CRes α → (α → CRes β) → CRes β
  | .ok a, f => f a
  | .err e, _ => .err e
  | .nofuel, _ => .nofuel
  | .panicked, _ => .panicked

/-- src/compiler/chunk.rs `Chunk::push_instr` (lines 36–39): append one
instruction (the Rust signature returns `CompileResult<()>` but the body is
infallible). -/
def Chunk.pushInstr (c : Chunk) (instr : Instruction) : Chunk :=
  { c with instructions := c.instructions ++ [instr] }

/-- src/compiler/chunk.rs `Chunk::push_constant` (lines 57–66): refuse a pool
of `MAX_CONST = 255` entries with `TooManyConstants`, otherwise append and
return the new entry's index (`(len - 1) as u8`, exact since the pool is kept
at ≤ 255 entries).  Note the instruction-emitting line inside it is commented
out in the source (line 63), so pushing a constant emits no instruction. -/
def Chunk.pushConstant (c : Chunk) (constant : Value) :
    Except CompileError (Nat × Chunk) :=
  if c.constants.length ≥ 255 then .error .TooManyConstants
  else .ok (c.constants.length, { c with constants := c.constants ++ [constant] })

/-- The per-entry test of `Chunk::has_string` (chunk.rs lines 72-87): a `Str`
or `Embedded` constant with exactly the given text; any other kind of
constant never matches. -/
def strMatch (v : Value) (s : String) : Bool :=
  match v with
  | .Str t => t == s
  | .Embedded t => t == s
  | _ => false

/-- The scan inside src/compiler/chunk.rs `Chunk::has_string` (lines 68–89):
position of the first constant-pool entry that is a `Str` or `Embedded` with
the given text. -/
def hasStringAux (constants : List Value) (i : Nat) (s : String) : Option Nat :=
  match constants with
  | [] => none
  | v :: rest => if strMatch v s then some i else hasStringAux rest (i + 1) s

/-- src/compiler/chunk.rs `Chunk::has_string`: the found position is returned
through an `as u8` cast (`Some(i as u8)`), hence the `% 256`; it is exact
whenever the pool respects the 255-entry bound. -/
def Chunk.hasString (c : Chunk) (s : String) : Option Nat :=
  match hasStringAux c.constants 0 s with
  | some i => some (i % 256)
  | none => none

/-- src/compiler/chunk.rs `Chunk::add_constant` (lines 42–54): a `Str`
constant is first looked up via `has_string` (deduplicating against `Str`
and `Embedded` entries); every other constant — numbers, and also `Embedded`
values — is pushed unconditionally. -/
def Chunk.addConstant (c : Chunk) (constant : Value) :
    Except CompileError (Nat × Chunk) :=
  match constant with
  | .Str s =>
    match c.hasString s with
    | some index => .ok (index, c)
    | none => c.pushConstant (.Str s)
  | _ => c.pushConstant constant

/-- src/compiler/chunk.rs `JumpCondition`. -/
inductive JumpCondition where
  | None
  | WhenTrue
  | WhenFalse
  deriving DecidableEq, Repr

/-- src/compiler/chunk.rs `Chunk::push_placeholder` (lines 91–95): remember
the next index and append a `Placeholder`. -/
def Chunk.pushPlaceholder (c : Chunk) : Nat × Chunk :=
  (c.instructions.length, c.pushInstr .Placeholder)

/-- src/compiler/chunk.rs `Chunk::patch_placeholder` (lines 97–122): replace
the instruction at `index` — which must be a `Placeholder`, `Jump` or
`JumpIf`, else `WrongPatch` — by the jump built from `jumpOffset` (already an
`i8`: the callers perform the `as i8` casts) and the condition.  An
out-of-range index is a Rust slice-index panic. -/
def Chunk.patchPlaceholder (c : Chunk) (index : Nat) (jumpOffset : Int)
    (jumpCond : JumpCondition) : CRes Chunk :=
  let instr : Instruction :=
    match jumpCond with
    | .None => .Jump jumpOffset
    | .WhenTrue => .JumpIf true jumpOffset
    | .WhenFalse => .JumpIf false jumpOffset
  match c.instructions.get? index with
  | none => .panicked
  | some .Placeholder => .ok { c with instructions := c.instructions.set index instr }
  | some (.Jump a) =>
    let _ := a
    .ok { c with instructions := c.instructions.set index instr }
  | some (.JumpIf a b) =>
    let _ := (a, b)
    .ok { c with instructions := c.instructions.set index instr }
  | some other => .err (.WrongPatch other)

/-- src/compiler/chunk.rs `Chunk::push_proto` with the code-start payload the
rest of the snapshot uses (see `FuncProto`): append a prototype, return its
index. -/
def Chunk.pushProto (c : Chunk) (codeStart : Nat) (argsLen : Nat)
    (upvalues : List UpValueDesc) : Nat × Chunk :=
  (c.prototypes.length,
   { c with prototypes := c.prototypes ++ [{ argsLen := argsLen, upvalues := upvalues, codeStart := codeStart }] })

/-- `Chunk::new`/`Chunk::default` (chunk.rs lines 155–163) seeds the constant
pool with `constant_names()` from `vm::lib`, which is not among the sources
(spec §4.2: host-provided predefined names); the seed is therefore a
parameter of compilation. -/
def Chunk.new (seedConstants : List Value) : Chunk :=
  { instructions := [], constants := seedConstants, prototypes := [] }

/-- src/compiler.rs `Compiler::new` (lines 56–63). -/
def Compiler.new (seedConstants : List Value) : Compiler :=
  { chunk := Chunk.new seedConstants, locals := [], depth := 0, closureScopes := [] }

/-- src/compiler.rs `Compiler::push_local` (lines 423–432): record the name at
the current depth, owned by the innermost closure scope if one exists. -/
def Compiler.pushLocal (cp : Compiler) (name : String) : Compiler :=
  { cp with locals := cp.locals ++
      [{ name := name
         depth := cp.depth
         closure := match cp.closureScopes.length with
                    | 0 => none
                    | i => some (i - 1) }] }

/-- src/compiler.rs `Compiler::scope_incr` (lines 434–436); `depth` is `u8` in
Rust, nesting past 255 is outside the modelled range. -/
def Compiler.scopeIncr (cp : Compiler) : Compiler :=
  { cp with depth := cp.depth + 1 }

/-- The pop-count of src/compiler.rs `Compiler::scope_decr` (lines 447–455):
how many trailing locals have depth greater than the new depth (the Rust
`while` pops from the back; counting over the reversed list is the same
loop). -/
def countDeeper (revLocals : List Local) (depth : Nat) : Nat :=
  match revLocals with
  | [] => 0
  | l :: rest => if depth < l.depth then countDeeper rest depth + 1 else 0

/-- src/compiler.rs `Compiler::scope_decr`: decrement the depth (callers keep
it balanced with `scope_incr`, so the `u8` never underflows on the compiler's
own paths), pop every local deeper than the new depth, return the count. -/
def Compiler.scopeDecr (cp : Compiler) : Nat × Compiler :=
  let d := cp.depth - 1
  let n := countDeeper cp.locals.reverse d
  (n, { cp with depth := d, locals := cp.locals.take (cp.locals.length - n) })

/-- src/compiler.rs `Compiler::enter_function` (lines 438–445). -/
def Compiler.enterFunction (cp : Compiler) : Compiler :=
  let cp1 := cp.scopeIncr
  { cp1 with closureScopes := cp1.closureScopes ++
      [{ depth := cp1.depth, localStart := cp1.locals.length, upvalues := [] }] }

/-- src/compiler.rs `Compiler::exit_function` (lines 457–460): pop the
innermost closure scope (`unwrap` — `none` is the panic) and run
`scope_decr`. -/
def Compiler.exitFunction (cp : Compiler) : Option (Nat × ClosureScope × Compiler) :=
  match cp.closureScopes.getLast? with
  | none => none
  | some scope =>
    let cp1 := { cp with closureScopes := cp.closureScopes.dropLast }
    let (popCount, cp2) := cp1.scopeDecr
    some (popCount, scope, cp2)

/-- The reverse scan of src/compiler.rs `Compiler::resolve_local` (lines
405–421): the *last* matching local (innermost binding wins), with its
forward index — computed as a forward fold keeping the latest match. -/
def findLastLocal (locals : List Local) (name : String) (i : Nat)
    (acc : Option (Nat × Local)) : Option (Nat × Local) :=
  match locals with
  | [] => acc
  | l :: rest =>
    findLastLocal rest name (i + 1) (if l.name == name then some (i, l) else acc)

/-- src/compiler.rs `Compiler::resolve_local`: resolve a name against the
local stack; yields `(index, closure_depth)`.  A local owned by closure scope
`ci` is reported relative to that scope's `local_start`, with
`closure_depth = closure_scopes.len() - ci`; a scope-less local reports
`(index, 0)`.  (For compiler-built states the stored scope index is always
live, so the `getD` default is never consulted; the subtraction cannot
underflow because a scope's locals sit at or above its `local_start`.) -/
def Compiler.resolveLocal (cp : Compiler) (name : String) : Option (Nat × Nat) :=
  match findLastLocal cp.locals name 0 none with
  | none => none
  | some (i, l) =>
    match l.closure with
    | some ci =>
      let scope := (cp.closureScopes.get? ci).getD
        { depth := 0, localStart := 0, upvalues := [] }
      some (i - scope.localStart, cp.closureScopes.length - ci)
    | none => some (i, 0)

/-- The capture-chain construction inside src/compiler.rs `Compiler::ident`
(lines 216–240), acting on the closure-scope suffix from `skip` onward: the
first scope receives a direct-capture descriptor (`is_this = true`) of the
incoming index, every later scope a re-capture (`is_this = false`) of the
previous scope's fresh descriptor; returns the final descriptor index (the
last scope's `upvalues.len() - 1`) and the rewritten suffix. -/
def addUpvals (scopes : List ClosureScope) (idx : Nat) (isFirst : Bool) :
    Nat × List ClosureScope :=
  match scopes with
  | [] => (idx, [])
  | sc :: rest =>
    let sc1 := { sc with upvalues := sc.upvalues ++ [{ index := idx, isThis := isFirst }] }
    let idx1 := sc1.upvalues.length - 1
    let (idxF, rest1) := addUpvals rest idx1 false
    (idxF, sc1 :: rest1)

/-- src/compiler.rs `Compiler::ident` (lines 213–250): a resolved local with
`frame > 1` is an upvalue — append capture descriptors to every closure scope
from `skip = closure_scopes.len() - frame` outward-in and emit `GetUpval` of
the innermost scope's last descriptor (an empty iterator at `skip` would be
the source's `unwrap` panic); `frame ≤ 1` emits `GetLocal { index, frame }`;
an unresolved name becomes a `GetGlobal` of its (deduplicated) string
constant. -/
def Compiler.ident (cp : Compiler) (name : String) : CRes Compiler :=
  match cp.resolveLocal name with
  | some (index, frame) =>
    if 1 < frame then
      let skip := cp.closureScopes.length - frame
      if cp.closureScopes.length ≤ skip then .panicked
      else
        let (idxF, suffix1) := addUpvals (cp.closureScopes.drop skip) index true
        let cp1 := { cp with closureScopes := cp.closureScopes.take skip ++ suffix1 }
        .ok { cp1 with chunk := cp1.chunk.pushInstr (.GetUpval idxF) }
    else
      .ok { cp with chunk := cp.chunk.pushInstr (.GetLocal index frame) }
  | none =>
    match cp.chunk.addConstant (.Str name) with
    | .error e => .err e
    | .ok (index, chunk1) =>
      .ok { cp with chunk := chunk1.pushInstr (.GetGlobal index) }

/-- src/compiler.rs `Compiler::literal` (lines 192–211).  `Nil`, `Bool` and
`Unit` emit their dedicated instructions; a string adds a (deduplicated)
constant and emits `Constant`; a number with zero fraction is stored as
`Int(n.trunc() as i32)` (for a `ℚ` that is `den = 1` and the numerator; the
saturating cast only matters beyond the `i32` range, outside any claim) and
otherwise as `Number` — in both numeric cases via `push_constant`, whose
instruction emission is commented out in chunk.rs (line 63), so **a numeric
literal adds a pool entry but emits no instruction**. -/
def Compiler.literal (cp : Compiler) (lit : Literal) : CRes Compiler :=
  match lit with
  | .Nil => .ok { cp with chunk := cp.chunk.pushInstr .Nil }
  | .Bool b =>
    .ok { cp with chunk := cp.chunk.pushInstr (if b then .True else .False) }
  | .Number n =>
    match cp.chunk.pushConstant (if n.den = 1 then .Int n.num else .Number n) with
    | .error e => .err e
    | .ok (_, chunk1) => .ok { cp with chunk := chunk1 }
  | .Str s =>
    match cp.chunk.addConstant (.Str s) with
    | .error e => .err e
    | .ok (index, chunk1) =>
      .ok { cp with chunk := chunk1.pushInstr (.Constant index) }
  | .Unit => .ok { cp with chunk := cp.chunk.pushInstr .Unit }

/-- Append `n` `Pop` instructions (the `for _ in 0..pop_count` emission loops
in `block_stmt` and `function_def`). -/
def pushPops (cp : Compiler) : Nat → Compiler
  | 0 => cp
  | n + 1 => pushPops { cp with chunk := cp.chunk.pushInstr .Pop } n

/-- The compiler's work items: one statement or expression, or the list
traversals the source writes as `for` loops (`exprsRev` iterates in reverse,
for the keyless table form; `kvPairs` is the zipped key/value loop of
`table_init`). -/
inductive CompTask where
  | stmt (s : Statement)
  | stmts (l : List Statement)
  | expr (e : Expr)
  | exprsFwd (l : List Expr)
  | exprsRev (l : List Expr)
  | kvPairs (ks vs : List Expr)

/-- src/compiler.rs `Compiler::expr_stmt` (lines 91–101): compile the
expression and drop its value with `Pop` — unless the expression is an
assignment, which leaves nothing on the stack. -/
def exprStmt (rec : CompTask → Compiler → CRes Compiler) (e : Expr)
    (cp : Compiler) : CRes Compiler :=
  let isAssignment : Bool := match e with | .Set _ _ => true | _ => false
  (rec (.expr e) cp).bind fun cp1 =>
    if isAssignment then .ok cp1
    else .ok { cp1 with chunk := cp1.chunk.pushInstr .Pop }

/-- src/compiler.rs `Compiler::let_stmt` (lines 103–107): record the local
*then* compile the initializer. -/
def letStmt (rec : CompTask → Compiler → CRes Compiler) (name : String)
    (value : Expr) (cp : Compiler) : CRes Compiler :=
  rec (.expr value) (cp.pushLocal name)

/-- src/compiler.rs `Compiler::block_stmt` (lines 109–118): enter a scope,
compile the statements, leave the scope and emit one `Pop` per discarded
local. -/
def blockStmt (rec : CompTask → Compiler → CRes Compiler)
    (stmts : List Statement) (cp : Compiler) : CRes Compiler :=
  (rec (.stmts stmts) cp.scopeIncr).bind fun cp1 =>
    let (n, cp2) := cp1.scopeDecr
    .ok (pushPops cp2 n)

/-- src/compiler.rs `Compiler::if_stmt` (lines 121–158): compile the
condition, reserve a placeholder, compile the `then` branch, and refuse with
`TooLongToJump` any skip offset above `i8::MAX` before patching a
`JumpIf(false)`; with an `else`, reserve and patch a second, unconditional
jump the same way, then re-patch the first jump to `offset + 1` — through the
source's `as i8` cast, which wraps at 128. -/
def ifStmt (rec : CompTask → Compiler → CRes Compiler) (cond : Expr)
    (thenB : Statement) (elseB : Option Statement) (cp : Compiler) : CRes Compiler :=
  (rec (.expr cond) cp).bind fun cp1 =>
    let (patchIndex, chunk2) := cp1.chunk.pushPlaceholder
    let cp2 := { cp1 with chunk := chunk2 }
    (rec (.stmt thenB) cp2).bind fun cp3 =>
      let offset := cp3.chunk.instructions.length - patchIndex
      if 127 < offset then .err .TooLongToJump
      else
        (cp3.chunk.patchPlaceholder patchIndex offset .WhenFalse).bind fun chunk4 =>
          let cp4 := { cp3 with chunk := chunk4 }
          match elseB with
          | none => .ok cp4
          | some elseBlock =>
            let (patchIndex2, chunk5) := cp4.chunk.pushPlaceholder
            let cp5 := { cp4 with chunk := chunk5 }
            (rec (.stmt elseBlock) cp5).bind fun cp6 =>
              let offset2 := cp6.chunk.instructions.length - patchIndex2
              if 127 < offset2 then .err .TooLongToJump
              else
                (cp6.chunk.patchPlaceholder patchIndex2 offset2 .None).bind fun chunk7 =>
                  (chunk7.patchPlaceholder patchIndex (i8cast (offset + 1))
                      .WhenFalse).bind fun chunk8 =>
                    .ok { cp6 with chunk := chunk8 }

/-- src/compiler.rs `Compiler::while_stmt` (lines 160–171): compile the
condition, reserve a placeholder, compile the body, then patch the
conditional exit jump with `(len - patch_index + 1) as i8` and append the
backward `Jump` with offset `-((len - start_index) as i8)` — **with no
`TooLongToJump` check anywhere**: an oversized body silently wraps through
the `as i8` casts (and `-(-128)` wraps back to `-128`). -/
def whileStmt (rec : CompTask → Compiler → CRes Compiler) (cond : Expr)
    (body : Statement) (cp : Compiler) : CRes Compiler :=
  let startIndex := cp.chunk.instructions.length
  (rec (.expr cond) cp).bind fun cp1 =>
    let (patchIndex, chunk2) := cp1.chunk.pushPlaceholder
    let cp2 := { cp1 with chunk := chunk2 }
    (rec (.stmt body) cp2).bind fun cp3 =>
      let offset := cp3.chunk.instructions.length - patchIndex + 1
      (cp3.chunk.patchPlaceholder patchIndex (i8cast offset) .WhenFalse).bind
        fun chunk4 =>
          let backOffset := i8cast (-(i8cast (chunk4.instructions.length - startIndex)))
          .ok { cp3 with chunk := chunk4.pushInstr (.Jump backOffset) }

/-- src/compiler.rs `Compiler::unary` (lines 252–259). -/
def unaryExpr (rec : CompTask → Compiler → CRes Compiler) (e : Expr)
    (op : UnaryOp) (cp : Compiler) : CRes Compiler :=
  (rec (.expr e) cp).bind fun cp1 =>
    let instr : UnaryInstr := match op with | .Minus => .Negate | .Bang => .Not
    .ok { cp1 with chunk := cp1.chunk.pushInstr (.Unary instr) }

/-- The operator lowering table of src/compiler.rs `Compiler::binary`
(lines 264–277). -/
def lowerBinaryOp : BinaryOp → BinaryInstr
  | .Plus => .Add
  | .Minus => .Sub
  | .Star => .Mul
  | .Slash => .Div
  | .Greater => .Gt
  | .Less => .Lt
  | .GreaterEqual => .Ge
  | .LessEqual => .Le
  | .EqualEqual => .Eq
  | .BangEqual => .Ne

/-- src/compiler.rs `Compiler::binary` (lines 261–279): left operand, right
operand, then the binary instruction. -/
def binaryExpr (rec : CompTask → Compiler → CRes Compiler) (left right : Expr)
    (op : BinaryOp) (cp : Compiler) : CRes Compiler :=
  (rec (.expr left) cp).bind fun cp1 =>
    (rec (.expr right) cp1).bind fun cp2 =>
      .ok { cp2 with chunk := cp2.chunk.pushInstr (.Bin (lowerBinaryOp op)) }

/-- src/compiler.rs `Compiler::access` (lines 289–308): compile the table,
then either a string-literal field as an immediate-key `GetFieldImm`, any
other literal or expression as a pushed key followed by `GetField`. -/
def accessExpr (rec : CompTask → Compiler → CRes Compiler) (table field : Expr)
    (cp : Compiler) : CRes Compiler :=
  (rec (.expr table) cp).bind fun cp1 =>
    match field with
    | .Literal (.Str s) =>
      match cp1.chunk.addConstant (.Str s) with
      | .error e => .err e
      | .ok (index, chunk2) =>
        .ok { cp1 with chunk := chunk2.pushInstr (.GetFieldImm index) }
    | .Literal lit =>
      (cp1.literal lit).bind fun cp2 =>
        .ok { cp2 with chunk := cp2.chunk.pushInstr .GetField }
    | fieldExpr =>
      (rec (.expr fieldExpr) cp1).bind fun cp2 =>
        .ok { cp2 with chunk := cp2.chunk.pushInstr .GetField }

/-- src/compiler.rs `Compiler::self_access` (lines 310–314). -/
def selfAccessExpr (rec : CompTask → Compiler → CRes Compiler) (table : Expr)
    (field : String) (cp : Compiler) : CRes Compiler :=
  (rec (.expr table) cp).bind fun cp1 =>
    match cp1.chunk.addConstant (.Str field) with
    | .error e => .err e
    | .ok (index, chunk2) =>
      .ok { cp1 with chunk := chunk2.pushInstr (.GetMethodImm index) }

/-- src/compiler.rs `Compiler::set` (lines 316–338).  Assignment to an
identifier first interns the name as a constant, then compiles the value,
then re-resolves the name — a local becomes `SetLocal { index, frame }`
(no upvalue special case: the §9 design gap), anything else `SetGlobal`.
Assignment to a field access compiles value, key, table in that order and
emits `SetField`.  Any other target is `InvalidAssignmentTarget`. -/
def setExpr (rec : CompTask → Compiler → CRes Compiler) (target value : Expr)
    (cp : Compiler) : CRes Compiler :=
  match target with
  | .Identifier name =>
    match cp.chunk.addConstant (.Str name) with
    | .error e => .err e
    | .ok (index, chunk1) =>
      (rec (.expr value) { cp with chunk := chunk1 }).bind fun cp2 =>
        match cp2.resolveLocal name with
        | some (localIndex, frame) =>
          .ok { cp2 with chunk := cp2.chunk.pushInstr (.SetLocal localIndex frame) }
        | none =>
          .ok { cp2 with chunk := cp2.chunk.pushInstr (.SetGlobal index) }
  | .Access table field =>
    (rec (.expr value) cp).bind fun cp1 =>
      (rec (.expr field) cp1).bind fun cp2 =>
        (rec (.expr table) cp2).bind fun cp3 =>
          .ok { cp3 with chunk := cp3.chunk.pushInstr .SetField }
  | _ => .err .InvalidAssignmentTarget

/-- src/compiler.rs `Compiler::table_init` (lines 340–360): keyed form
compiles `key, value` for each zipped pair, keyless form compiles the values
in reverse; then `InitTable { len, has_keys }` with `len` the value count
(`as u16`, exact below 65536). -/
def tableInitExpr (rec : CompTask → Compiler → CRes Compiler)
    (keys : Option (List Expr)) (values : List Expr) (cp : Compiler) : CRes Compiler :=
  let len := values.length
  (match keys with
   | some ks => (rec (.kvPairs ks values) cp).bind fun cp1 => .ok (cp1, true)
   | none => (rec (.exprsRev values) cp).bind fun cp1 => .ok (cp1, false)).bind
    fun r =>
      .ok { r.1 with chunk := r.1.chunk.pushInstr (.InitTable len r.2) }

/-- src/compiler.rs `Compiler::function_def` (lines 362–388): reserve a
placeholder so linear execution skips the body, record
`code_start = len - 1` (the placeholder's own index), enter a closure scope,
bind the parameters, compile the body, exit the scope, emit the leftover
pops and the implicit `Return`, patch the placeholder with the skip offset
(through the source's `as i8` cast), register the prototype and emit
`FuncDef`. -/
def functionDef (rec : CompTask → Compiler → CRes Compiler) (args : List String)
    (body : List Statement) (cp : Compiler) : CRes Compiler :=
  let (patchIndex, chunk1) := cp.chunk.pushPlaceholder
  let argsLen := args.length
  let codeStart := chunk1.instructions.length - 1
  let cp2 := args.foldl Compiler.pushLocal ({ cp with chunk := chunk1 }).enterFunction
  (rec (.stmts body) cp2).bind fun cp3 =>
    match cp3.exitFunction with
    | none => .panicked
    | some (popCount, closureScope, cp4) =>
      let cp5 := pushPops cp4 popCount
      let chunk6 := cp5.chunk.pushInstr (.Return false)
      let offset := chunk6.instructions.length - patchIndex
      (chunk6.patchPlaceholder patchIndex (i8cast offset) .None).bind fun chunk7 =>
        let (protoIndex, chunk8) :=
          chunk7.pushProto codeStart argsLen closureScope.upvalues
        .ok { cp5 with chunk := chunk8.pushInstr (.FuncDef protoIndex) }

/-- src/compiler.rs `Compiler::call` (lines 390–397): arguments in order, then
the callee, then `Call { args_len }` (`as u8`, exact below 256). -/
def callExpr (rec : CompTask → Compiler → CRes Compiler) (func : Expr)
    (args : List Expr) (cp : Compiler) : CRes Compiler :=
  let argsLen := args.length
  (rec (.exprsFwd args) cp).bind fun cp1 =>
    (rec (.expr func) cp1).bind fun cp2 =>
      .ok { cp2 with chunk := cp2.chunk.pushInstr (.Call argsLen) }

/-- The mutually recursive heart of the compiler — src/compiler.rs
`compile_stmt` (lines 65–89) and `compile_expr` (lines 173–190) plus the
source's `for`-loop traversals — driven by structural fuel so that every
clause is kernel-reducible. -/
def compileGo : Nat → CompTask → Compiler → CRes Compiler
  | 0, _, _ => .nofuel
  | fuel + 1, task, cp =>
    match task with
    | .stmt s =>
      match s with
      | .Expr e => exprStmt (compileGo fuel) e cp
      | .Let name value => letStmt (compileGo fuel) name value cp
      | .Block stmts => blockStmt (compileGo fuel) stmts cp
      | .If c t e => ifStmt (compileGo fuel) c t e cp
      | .While c b => whileStmt (compileGo fuel) c b cp
      | .Print e =>
        (compileGo fuel (.expr e) cp).bind fun cp1 =>
          .ok { cp1 with chunk := cp1.chunk.pushInstr .Print }
      | .Return e =>
        (compileGo fuel (.expr e) cp).bind fun cp1 =>
          .ok { cp1 with chunk := cp1.chunk.pushInstr (.Return true) }
    | .stmts l =>
      match l with
      | [] => .ok cp
      | s :: rest =>
        (compileGo fuel (.stmt s) cp).bind fun cp1 =>
          compileGo fuel (.stmts rest) cp1
    | .expr e =>
      match e with
      | .Literal lit => cp.literal lit
      | .Identifier name => cp.ident name
      | .Unary op e1 => unaryExpr (compileGo fuel) e1 op cp
      | .Binary l op r => binaryExpr (compileGo fuel) l r op cp
      | .Grouping e1 => compileGo fuel (.expr e1) cp
      | .Tuple exprs =>
        (compileGo fuel (.exprsFwd exprs) cp).bind fun cp1 =>
          .ok { cp1 with chunk := cp1.chunk.pushInstr (.Tuple exprs.length) }
      | .Access table field => accessExpr (compileGo fuel) table field cp
      | .SelfAccess table field => selfAccessExpr (compileGo fuel) table field cp
      | .Set target value => setExpr (compileGo fuel) target value cp
      | .TableInit keys values => tableInitExpr (compileGo fuel) keys values cp
      | .Function args body => functionDef (compileGo fuel) args body cp
      | .Call func args => callExpr (compileGo fuel) func args cp
      | .Block _ _ => .err .UnimplementedExpr
      | .If _ _ _ => .err .UnimplementedExpr
    | .exprsFwd l =>
      match l with
      | [] => .ok cp
      | e :: rest =>
        (compileGo fuel (.expr e) cp).bind fun cp1 =>
          compileGo fuel (.exprsFwd rest) cp1
    | .exprsRev l =>
      match l with
      | [] => .ok cp
      | e :: rest =>
        (compileGo fuel (.exprsRev rest) cp).bind fun cp1 =>
          compileGo fuel (.expr e) cp1
    | .kvPairs ks vs =>
      match ks, vs with
      | k :: ks1, v :: vs1 =>
        (compileGo fuel (.expr k) cp).bind fun cp1 =>
          (compileGo fuel (.expr v) cp1).bind fun cp2 =>
            compileGo fuel (.kvPairs ks1 vs1) cp2
      | _, _ => .ok cp

/-- src/compiler.rs `Compiler::compile` (lines 45–54): fresh compiler (with
the host-seeded constant pool), all statements, then the final implicit
`Return { return_value: false }`. -/
def compile (fuel : Nat) (seedConstants : List Value) (stmts : List Statement) :
    CRes Chunk :=
  (compileGo fuel (.stmts stmts) (Compiler.new seedConstants)).bind fun cp =>
    .ok (cp.chunk.pushInstr (.Return false))

/-- The instruction stream of a successful compilation, for stating concrete
compilation results without spelling out the whole compiler state. -/
def instructionsOf : CRes Chunk → Option (List Instruction)
  | .ok c => some c.instructions
  | _ => none

/-- The constant pool of a successful compilation. -/
def constantsOf : CRes Chunk → Option (List Value)
  | .ok c => some c.constants
  | _ => none

/-- The operand-kind combinations for which src/vm.rs `Vm::binary` has a
dedicated arm: `Number`/`Number`, `Number`(left)/`Int`(right), `Int`/`Int`
and `Str`/`Str`; everything else reaches the catch-all. -/
def definedKinds (l r : Value) : Bool :=
  match l, r with
  | .Number _, .Number _ => true
  | .Number _, .Int _ => true
  | .Int _, .Int _ => true
  | .Str _, .Str _ => true
  | _, _ => false

/-! ### Theorems -/

/-- `Vec::pop` after a push recovers the pushed element and the original
vector, in the list model of the operand stack. -/
theorem popBack_push {α : Type} (s : List α) (v : α) :
    popBack (s ++ [v]) = some (v, s) := by
  simp [popBack]

/-- C1, counterexample.  The claim's own instance `1 + 2.5` has the `Int` on
the left; `Vm::binary` has no `Int`/`Number` arm, so the pair falls into the
catch-all and the result is the `UnsupportedBinary` error carrying `Int 1`
and `Add` — not `Number(3.5)` as the claim states. -/
theorem c1_counterexample :
    Vm.binary .Add (.Int 1) (.Number (5 / 2)) =
      .err (.UnsupportedBinary (.Int 1) .Add) := rfl

/-- C1, amended: promotion of the `Int` operand to a 64-bit float happens
only when the `Number` is the *left* operand.  (1) For every arithmetic or
ordering operator, `Number a ⊕ Int b` computes exactly `Number a ⊕ Number ↑b`
— the `Int` is cast to float and the float arm runs; (2) concretely
`2.5 + 1` (Number left) is `Number 3.5`; (3) with the `Int` on the left the
operation instead fails with `UnsupportedBinary` carrying the `Int` operand
and the operator. -/
theorem c1_amended :
    (∀ (op : BinaryInstr) (a : ℚ) (b : Int), op ≠ .Eq → op ≠ .Ne →
        Vm.binary op (.Number a) (.Int b) =
          Vm.binary op (.Number a) (.Number (b : ℚ)))
    ∧ Vm.binary .Add (.Number (5 / 2)) (.Int 1) = .ok (.Number (7 / 2))
    ∧ (∀ (op : BinaryInstr) (a : Int) (q : ℚ), op ≠ .Eq → op ≠ .Ne →
        Vm.binary op (.Int a) (.Number q) =
          .err (.UnsupportedBinary (.Int a) op)) := by
  refine ⟨fun op a b h1 h2 => ?_, ?_, fun op a q h1 h2 => ?_⟩
  · cases op <;> first
      | rfl
      | exact absurd rfl h1
      | exact absurd rfl h2
  · show RRes.ok (Value.Number ((5 / 2 : ℚ) + ((1 : Int) : ℚ))) =
      RRes.ok (Value.Number (7 / 2))
    norm_num
  · cases op <;> first
      | rfl
      | exact absurd rfl h1
      | exact absurd rfl h2

/-- C1, witness for the amended theorem: its universal clauses instantiated
at `Number 3 - Int 2` and `Int 0 < Number 1`. -/
theorem c1_witness :
    Vm.binary .Sub (.Number 3) (.Int 2) =
      Vm.binary .Sub (.Number 3) (.Number ((2 : Int) : ℚ))
    ∧ Vm.binary .Lt (.Int 0) (.Number 1) =
      .err (.UnsupportedBinary (.Int 0) .Lt) :=
  ⟨c1_amended.1 .Sub 3 2 (by decide) (by decide),
   c1_amended.2.2 .Lt 0 1 (by decide) (by decide)⟩

/-- C4: table equality is identity-based (`Table`'s `PartialEq` is
spec-modelled as identity, see `tableEq`).  Through the VM's `==` (the `Eq`
arm of `Vm::binary`), two distinct table instances compare `false` regardless
of the heap contents behind their identifiers — the comparison never consults
the heap — while a table compared with itself, or with a reference-copy
carrying the same identifier, yields `true`. -/
theorem c4_table_identity :
    (∀ i j : Nat, i ≠ j → Vm.binary .Eq (.Table i) (.Table j) = .ok (.Bool false))
    ∧ (∀ i : Nat, Vm.binary .Eq (.Table i) (.Table i) = .ok (.Bool true))
    ∧ (∀ i j : Nat, valueEq (.Table i) (.Table j) = (i == j)) := by
  refine ⟨fun i j h => ?_, fun i => ?_, fun i j => ?_⟩
  · simp [Vm.binary, valueEq, tableEq, h]
  · simp [Vm.binary, valueEq, tableEq]
  · simp [valueEq, tableEq]

/-- C4, witness: the identity comparison at the concrete identifiers 0 ≠ 1
and 5 = 5. -/
theorem c4_witness :
    Vm.binary .Eq (.Table 0) (.Table 1) = .ok (.Bool false)
    ∧ Vm.binary .Eq (.Table 5) (.Table 5) = .ok (.Bool true) :=
  ⟨c4_table_identity.1 0 1 (by decide), c4_table_identity.2.1 5⟩

/-- C5, counterexample.  The claim lists "Str compared with `<`" as an
`UnsupportedBinary` case, but the `Str`/`Str` arm of `Vm::binary` maps every
operator other than `Add` to `TypeError`: comparing `"a" < "b"` fails with
`TypeError`, not with `UnsupportedBinary`. -/
theorem c5_counterexample :
    Vm.binary .Lt (.Str "a") (.Str "b") = .err .TypeError := rfl

/-- C5, amended: for every non-equality operator, an operand-kind combination
outside {`Number`/`Number`, `Number`(left)/`Int`(right), `Int`/`Int`,
`Str`/`Str`} fails with `UnsupportedBinary` carrying the left operand and the
operator; the excluded `Str`/`Str` combination under a non-equality operator
other than `Add` instead fails with `TypeError`. -/
theorem c5_amended :
    (∀ (op : BinaryInstr) (l r : Value), op ≠ .Eq → op ≠ .Ne →
        definedKinds l r = false →
        Vm.binary op l r = .err (.UnsupportedBinary l op))
    ∧ (∀ (op : BinaryInstr) (a b : String), op ≠ .Eq → op ≠ .Ne → op ≠ .Add →
        Vm.binary op (.Str a) (.Str b) = .err .TypeError) := by
  refine ⟨fun op l r h1 h2 h3 => ?_, fun op a b h1 h2 h3 => ?_⟩
  · cases l <;> cases r <;> simp [definedKinds] at h3 <;> cases op <;> first
      | rfl
      | exact absurd rfl h1
      | exact absurd rfl h2
  · cases op <;> first
      | rfl
      | exact absurd rfl h1
      | exact absurd rfl h2
      | exact absurd rfl h3

/-- C5, witness for the amended theorem: `Bool + Int` (the claim's example)
carries the offending `Bool` operand, and `Str ≤ Str` is a `TypeError`. -/
theorem c5_witness :
    Vm.binary .Add (.Bool true) (.Int 1) =
      .err (.UnsupportedBinary (.Bool true) .Add)
    ∧ Vm.binary .Le (.Str "x") (.Str "y") = .err .TypeError :=
  ⟨c5_amended.1 .Add (.Bool true) (.Int 1) (by decide) (by decide) rfl,
   c5_amended.2 .Le "x" "y" (by decide) (by decide) (by decide)⟩

/-- C6: `Int`/`Int` arithmetic never promotes — `+`, `-`, `*` yield the
(32-bit wrapped) integer results and `/` yields the truncating `i32`
division (`Int.tdiv` truncates toward zero, as Rust's `/` does) whenever it
does not panic (zero divisor or `i32::MIN / -1`, cf. C10); concretely
`4 / 2 = Int 2` and `5 / 2 = Int 2`. -/
theorem c6_int_arithmetic :
    (∀ a b : Int,
        Vm.binary .Add (.Int a) (.Int b) = .ok (.Int (wrap32 (a + b)))
        ∧ Vm.binary .Sub (.Int a) (.Int b) = .ok (.Int (wrap32 (a - b)))
        ∧ Vm.binary .Mul (.Int a) (.Int b) = .ok (.Int (wrap32 (a * b))))
    ∧ (∀ a b : Int, b ≠ 0 → ¬(a = -2 ^ 31 ∧ b = -1) →
        Vm.binary .Div (.Int a) (.Int b) = .ok (.Int (a.tdiv b)))
    ∧ Vm.binary .Div (.Int 4) (.Int 2) = .ok (.Int 2)
    ∧ Vm.binary .Div (.Int 5) (.Int 2) = .ok (.Int 2) := by
  refine ⟨fun a b => ⟨rfl, rfl, rfl⟩, fun a b h1 h2 => ?_, rfl, rfl⟩
  have h : ¬(b = 0 ∨ (a = -2 ^ 31 ∧ b = -1)) := by
    rintro (h | h)
    · exact h1 h
    · exact h2 h
  show (if b = 0 ∨ (a = -2 ^ 31 ∧ b = -1) then RRes.panicked
        else RRes.ok (Value.Int (a.tdiv b))) = RRes.ok (Value.Int (a.tdiv b))
  exact if_neg h

/-- C6, witness: the division clause instantiated at `7 / 2 = Int 3`. -/
theorem c6_witness : Vm.binary .Div (.Int 7) (.Int 2) = .ok (.Int 3) :=
  c6_int_arithmetic.2.1 7 2 (by decide) (by decide)

/-- C10: `Int`/`Int` division is unguarded against a zero divisor — for every
dividend, `Int a / Int 0` reaches the division-by-zero branch of the (total)
embedding and is a panic of the concrete program, never a `RuntimeError`
result (neither `TypeError` nor `UnsupportedBinary` nor any other). -/
theorem c10_div_by_zero_panics :
    ∀ a : Int, Vm.binary .Div (.Int a) (.Int 0) = .panicked
      ∧ ∀ e : RuntimeError, Vm.binary .Div (.Int a) (.Int 0) ≠ .err e := by
  intro a
  constructor
  · simp [Vm.binary]
  · intro e h
    rw [show Vm.binary .Div (.Int a) (.Int 0) = .panicked by simp [Vm.binary]] at h
    exact absurd h (by simp)

/-- C10, witness: the panic at the concrete division `Int 3 / Int 0`. -/
theorem c10_witness : Vm.binary .Div (.Int 3) (.Int 0) = .panicked :=
  (c10_div_by_zero_panics 3).1

/-- C9: a condition value is true exactly when it is neither `Bool false` nor
`Nil` — every `Int` (including 0), `Number` (including 0), `Str` (including
""), `Unit`, `Table`, `Tuple` and `Function` value counts as true — and in
the conditional jump that `if`/`while` conditions compile to
(`JumpIf { when_true: false }`), a true condition means the jump is *not*
taken: execution falls through into the body, the condition popped. -/
theorem c9_truthiness :
    (∀ v : Value, toBool v = true ↔ (v ≠ .Bool false ∧ v ≠ .Nil))
    ∧ (∀ (st : VmState) (f : Frame) (v : Value) (s1 : List Value) (offset : Int),
        st.frames.getLast? = some f →
        st.chunk.instructions[f.pc]? = some (.JumpIf false offset) →
        st.stack = s1 ++ [v] →
        toBool v = true →
        Vm.step st = incPC { st with stack := s1 }) := by
  constructor
  · intro v
    cases v <;> simp [toBool]
  · intro st f v s1 offset h1 h2 h3 h4
    simp [Vm.step, h1, h2, h3, popBack_push, h4]

/-- C9, witness: the fall-through clause at the concrete state whose
condition value is `Int 0` (true as a condition) before a
`JumpIf { when_true: false }`. -/
theorem c9_witness :
    Vm.step
      { frames := [{ pc := 0, stackTop := 0 }], stack := [.Int 0], globals := []
        chunk := { instructions := [.JumpIf false 1], constants := [], prototypes := [] }
        tables := [], nextTableId := 0, output := [] } =
    incPC
      { frames := [{ pc := 0, stackTop := 0 }], stack := [], globals := []
        chunk := { instructions := [.JumpIf false 1], constants := [], prototypes := [] }
        tables := [], nextTableId := 0, output := [] } :=
  c9_truthiness.2 _ { pc := 0, stackTop := 0 } (.Int 0) [] 1 rfl rfl rfl rfl

/-- C3: executing `Return`, the VM pops the return value when the instruction
carries one and substitutes `Unit` otherwise, discards every operand-stack
entry above the returning frame's recorded `stack_top` (`popToTop`), pushes
the return value, and pops the frame (when frames remain, the loop-end
increment then advances the caller's pc); when the popped frame was the last
one, `run` terminates — the pushed value is popped back as the program's
result (for the root frame `stack_top = 0`, so it was the single remaining
stack value), and that is exactly the value `run` returns. -/
theorem c3_return_semantics :
    (∀ (st : VmState) (f : Frame) (rv : Bool) (v : Value) (s1 : List Value),
        st.frames.getLast? = some f →
        st.chunk.instructions[f.pc]? = some (.Return rv) →
        (if rv then popBack st.stack else some (.Unit, st.stack)) = some (v, s1) →
        Vm.step st =
          if st.frames.dropLast.isEmpty then
            .halt v { st with stack := popToTop s1 f.stackTop, frames := [] }
          else
            incPC { st with stack := popToTop s1 f.stackTop ++ [v],
                            frames := st.frames.dropLast })
    ∧ (∀ (st : VmState) (f : Frame) (rv : Bool) (v : Value) (s1 : List Value)
        (fuel : Nat),
        st.frames = [f] →
        st.chunk.instructions[f.pc]? = some (.Return rv) →
        (if rv then popBack st.stack else some (.Unit, st.stack)) = some (v, s1) →
        Vm.run (fuel + 1) st = .value v st.output) := by
  have hstep : ∀ (st : VmState) (f : Frame) (rv : Bool) (v : Value) (s1 : List Value),
      st.frames.getLast? = some f →
      st.chunk.instructions[f.pc]? = some (.Return rv) →
      (if rv then popBack st.stack else some (.Unit, st.stack)) = some (v, s1) →
      Vm.step st =
        if st.frames.dropLast.isEmpty then
          .halt v { st with stack := popToTop s1 f.stackTop, frames := [] }
        else
          incPC { st with stack := popToTop s1 f.stackTop ++ [v],
                          frames := st.frames.dropLast } := by
    intro st f rv v s1 h1 h2 h3
    simp [Vm.step, h1, h2, h3]
  refine ⟨hstep, fun st f rv v s1 fuel h1 h2 h3 => ?_⟩
  have hg : st.frames.getLast? = some f := by rw [h1]; rfl
  have hs := hstep st f rv v s1 hg h2 h3
  rw [h1] at hs
  simp only [List.dropLast_single, List.isEmpty_nil, if_true] at hs
  simp [Vm.run, hs]

/-- C3, witness: a one-instruction chunk `Return { return_value: true }` run
from the initial frame with `Int 7` on the stack terminates with result
`Int 7`. -/
theorem c3_witness :
    Vm.run 1
      { frames := [{ pc := 0, stackTop := 0 }], stack := [.Int 7], globals := []
        chunk := { instructions := [.Return true], constants := [], prototypes := [] }
        tables := [], nextTableId := 0, output := [] } = .value (.Int 7) [] :=
  c3_return_semantics.2 _ { pc := 0, stackTop := 0 } true (.Int 7) [] 0 rfl rfl rfl

/-- C7, evaluation at the claim's program.  The claim says
`let x = 1; { let x = 2; print x; } print x;` prints `2` then `1`.  In the
snapshot, `Chunk::push_constant` has its instruction-emitting line commented
out (chunk.rs line 63) and `Compiler::literal` relies on it for numeric
literals, so the two `let` initializers add `Int 1`/`Int 2` to the pool but
emit **no** instruction: the compiled stream is just the two `GetLocal`s,
`Print`s, the block's `Pop` and the final `Return` — and running it indexes
slot 1 of an *empty* operand stack, a Rust `Vec`-index panic, printing
nothing.  (The identifier resolution itself is as the claim describes:
`GetLocal 1` inside the block, `GetLocal 0` outside.)  The spec's testable
property is unachievable: the code is the bug. -/
theorem c7_scope_program_panics :
    compile 100 []
      [ .Let "x" (.Literal (.Number (mkRat 1 1))),
        .Block [ .Let "x" (.Literal (.Number (mkRat 2 1))),
                 .Print (.Identifier "x") ],
        .Print (.Identifier "x") ]
      = .ok { instructions := [.GetLocal 1 0, .Print, .Pop, .GetLocal 0 0,
                              .Print, .Return false]
              constants := [.Int 1, .Int 2], prototypes := [] }
    ∧ Vm.run 10
        (initVm { instructions := [.GetLocal 1 0, .Print, .Pop, .GetLocal 0 0,
                                   .Print, .Return false]
                  constants := [.Int 1, .Int 2], prototypes := [] } [])
      = .panicked [] :=
  ⟨rfl, rfl⟩

/-- `Chunk::has_string`'s scan skips a prefix containing no matching entry,
continuing at the shifted position. -/
theorem hasStringAux_append_no_match (pre rest : List Value) (s : String)
    (i : Nat) (h : ∀ v ∈ pre, strMatch v s = false) :
    hasStringAux (pre ++ rest) i s = hasStringAux rest (i + pre.length) s := by
  induction pre generalizing i with
  | nil => simp
  | cons v pre1 ih =>
    have hv : strMatch v s = false := h v (List.mem_cons_self v pre1)
    have hrest : ∀ w ∈ pre1, strMatch w s = false :=
      fun w hw => h w (List.mem_cons_of_mem v hw)
    simp only [List.cons_append, List.append_eq, hasStringAux, hv,
      Bool.false_eq_true, if_false, List.length_cons]
    rw [ih (i + 1) hrest]
    congr 1
    omega

/-- C8: string constants are deduplicated by value, `Embedded` entries
included; numeric constants are never deduplicated.  (1) Whenever
`has_string` finds an existing entry, `add_constant` of the equal `Str`
returns that entry's index and leaves the pool untouched; (2)/(3) an
`Embedded` resp. `Str` entry with the given text, first match in the pool,
is found at its own position; (4)/(5) adding an `Int` resp. `Number`
constant always appends a fresh entry at the old pool length, even when an
equal value is already present (pool below its 255-entry capacity). -/
theorem c8_constant_pool_dedup :
    (∀ (c : Chunk) (s : String) (i : Nat),
        c.hasString s = some i → c.addConstant (.Str s) = .ok (i, c))
    ∧ (∀ (c : Chunk) (pre post : List Value) (s : String),
        c.constants = pre ++ (.Embedded s :: post) →
        (∀ v ∈ pre, strMatch v s = false) →
        pre.length < 256 →
        c.addConstant (.Str s) = .ok (pre.length, c))
    ∧ (∀ (c : Chunk) (pre post : List Value) (s : String),
        c.constants = pre ++ (.Str s :: post) →
        (∀ v ∈ pre, strMatch v s = false) →
        pre.length < 256 →
        c.addConstant (.Str s) = .ok (pre.length, c))
    ∧ (∀ (c : Chunk) (n : Int), c.constants.length < 255 →
        c.addConstant (.Int n) =
          .ok (c.constants.length, { c with constants := c.constants ++ [.Int n] }))
    ∧ (∀ (c : Chunk) (q : ℚ), c.constants.length < 255 →
        c.addConstant (.Number q) =
          .ok (c.constants.length,
               { c with constants := c.constants ++ [.Number q] })) := by
  have hadd : ∀ (c : Chunk) (s : String) (i : Nat),
      c.hasString s = some i → c.addConstant (.Str s) = .ok (i, c) := by
    intro c s i h
    simp [Chunk.addConstant, h]
  have hfind : ∀ (c : Chunk) (pre post : List Value) (s : String) (w : Value),
      strMatch w s = true →
      c.constants = pre ++ (w :: post) →
      (∀ v ∈ pre, strMatch v s = false) →
      pre.length < 256 →
      c.hasString s = some pre.length := by
    intro c pre post s w hw hc hpre hlen
    simp only [Chunk.hasString, hc, hasStringAux_append_no_match pre _ s 0 hpre,
      hasStringAux, hw, if_true, Nat.zero_add]
    rw [Nat.mod_eq_of_lt hlen]
  have hpush : ∀ (c : Chunk) (v : Value), c.constants.length < 255 →
      c.pushConstant v =
        .ok (c.constants.length, { c with constants := c.constants ++ [v] }) := by
    intro c v h
    have : ¬ (c.constants.length ≥ 255) := by omega
    simp [Chunk.pushConstant, this]
  refine ⟨hadd, fun c pre post s hc hpre hlen => ?_,
          fun c pre post s hc hpre hlen => ?_,
          fun c n h => ?_, fun c q h => ?_⟩
  · exact hadd c s pre.length (hfind c pre post s (.Embedded s) (by simp [strMatch]) hc hpre hlen)
  · exact hadd c s pre.length (hfind c pre post s (.Str s) (by simp [strMatch]) hc hpre hlen)
  · simp [Chunk.addConstant, hpush c (.Int n) h]
  · simp [Chunk.addConstant, hpush c (.Number q) h]

/-- C8, witness: a `Str "print"` added to a pool whose first entry is
`Embedded "print"` dedups to index 0 without growing the pool; an `Int 7`
added to a pool already holding `Int 7` is appended again at index 1. -/
theorem c8_witness :
    Chunk.addConstant
        { instructions := [], constants := [.Embedded "print"], prototypes := [] }
        (.Str "print")
      = .ok (0, { instructions := [], constants := [.Embedded "print"],
                  prototypes := [] })
    ∧ Chunk.addConstant
        { instructions := [], constants := [.Int 7], prototypes := [] } (.Int 7)
      = .ok (1, { instructions := [], constants := [.Int 7, .Int 7],
                  prototypes := [] }) :=
  ⟨c8_constant_pool_dedup.2.1 _ [] [] "print" rfl (by simp) (by norm_num),
   c8_constant_pool_dedup.2.2.2.1 _ 7 (by norm_num)⟩

/-- C2, counterexample.  A `while` whose body is 64 `nil;` statements (128
instructions, so the exit jump must skip 130 > 127 slots) *compiles
successfully* — `while_stmt` performs no `TooLongToJump` check at all; the
exit offset is silently truncated through the `as i8` cast to `-126` (and
the back-jump to `126`), refuting the claim for while-loop bodies. -/
theorem c2_counterexample :
    instructionsOf (compile 1000 []
        [ .While (.Literal .Nil)
            (.Block (List.replicate 64 (.Expr (.Literal .Nil)))) ])
      = some ([.Nil, .JumpIf false (-126)]
          ++ (List.replicate 64 [Instruction.Nil, Instruction.Pop]).flatten
          ++ [.Jump 126, .Return false]) := rfl

/-- C2, amended: the bound is enforced for `if` branches only.  (1) For every
`if`, once the condition and the `then` branch have compiled, a skip offset
(`then`-length + 1) above `i8::MAX = 127` aborts compilation with
`TooLongToJump` — whatever the `else`; (2) the same check guards the `else`
branch's own skip offset; (3) a `then` branch whose required skip offset is
exactly 127 (63 `nil;` statements: 126 instructions + the patch slot)
compiles, the placeholder patched to `JumpIf false 127`.  `while` bodies are
exempt — see the counterexample. -/
theorem c2_jump_bound :
    (∀ (fuel : Nat) (cond : Expr) (thenB : Statement) (elseB : Option Statement)
        (cp cp1 cp3 : Compiler),
        compileGo fuel (.expr cond) cp = .ok cp1 →
        compileGo fuel (.stmt thenB)
          { cp1 with chunk := cp1.chunk.pushInstr .Placeholder } = .ok cp3 →
        127 < cp3.chunk.instructions.length - cp1.chunk.instructions.length →
        compileGo (fuel + 1) (.stmt (.If cond thenB elseB)) cp =
          .err .TooLongToJump)
    ∧ (∀ (fuel : Nat) (cond : Expr) (thenB elseBlock : Statement)
        (cp cp1 cp3 cp6 : Compiler),
        compileGo fuel (.expr cond) cp = .ok cp1 →
        compileGo fuel (.stmt thenB)
          { cp1 with chunk := cp1.chunk.pushInstr .Placeholder } = .ok cp3 →
        cp3.chunk.instructions.length - cp1.chunk.instructions.length ≤ 127 →
        cp3.chunk.instructions[cp1.chunk.instructions.length]? =
          some .Placeholder →
        compileGo fuel (.stmt elseBlock)
          { cp3 with chunk :=
              (Chunk.pushInstr
                { cp3.chunk with instructions :=
                    (cp3.chunk.instructions.set cp1.chunk.instructions.length
                      (.JumpIf false
                        ((cp3.chunk.instructions.length -
                          cp1.chunk.instructions.length : Nat) : Int))) }
                .Placeholder) } = .ok cp6 →
        127 < cp6.chunk.instructions.length - cp3.chunk.instructions.length →
        compileGo (fuel + 1) (.stmt (.If cond thenB (some elseBlock))) cp =
          .err .TooLongToJump)
    ∧ instructionsOf (compile 1000 []
          [ .If (.Literal .Nil)
              (.Block (List.replicate 63 (.Expr (.Literal .Nil)))) none ])
        = some ([.Nil, .JumpIf false 127]
            ++ (List.replicate 63 [Instruction.Nil, Instruction.Pop]).flatten
            ++ [.Return false]) := by
  refine ⟨fun fuel cond thenB elseB cp cp1 cp3 h1 h2 h3 => ?_,
          fun fuel cond thenB elseBlock cp cp1 cp3 cp6 h1 h2 h3 h4 h5 h6 => ?_,
          rfl⟩
  · simp [compileGo, ifStmt, CRes.bind, Chunk.pushPlaceholder, h1, h2, h3]
  · have h3' : ¬ (127 <
        cp3.chunk.instructions.length - cp1.chunk.instructions.length) := by omega
    simp [compileGo, ifStmt, CRes.bind, Chunk.pushPlaceholder,
      Chunk.patchPlaceholder, h1, h2, h3', h4, h5, h6]

/-- C2, witness for the amended theorem: its first clause instantiated at a
64-`nil;` `then` body (required skip offset 129 > 127), which aborts with
`TooLongToJump`. -/
theorem c2_witness :
    compileGo 1000
      (.stmt (.If (.Literal .Nil)
        (.Block (List.replicate 64 (.Expr (.Literal .Nil)))) none))
      (Compiler.new []) = .err .TooLongToJump :=
  c2_jump_bound.1 999 _ _ _ _ _ _ rfl rfl (by decide)

end Flux
